import Mathlib

/-!
Shallow embedding of the Minesweeper AI inference engine
(`minesweeper.py`: classes `Sentence` and `MinesweeperAI`, plus the
`Minesweeper.nearby_mines` board helper used to state consistency of a
sequence of reveals).

Python sets of cells are embedded as `Finset (ℤ × ℤ)` (value semantics,
order-irrelevant equality, exactly like `set.__eq__`).  The agent's
`mines` and `safes` attributes are Python *lists* built by `append`, so
they are embedded as `List (ℤ × ℤ)`; `knowledge` is a Python list of
`Sentence` objects, embedded as `List Sentence` with value semantics
(`Sentence.__eq__` compares the cell-set and the count, which is exactly
structural equality here).  Where the Python code iterates over a `set`
and appends the elements to a list, the iteration order is unspecified in
Python; the embedding fixes the deterministic lexicographic order
(`cellLe`).  Every property proved below depends only on membership, not
on that order.
-/

abbrev Cell : Type := ℤ × ℤ

/-- `Sentence(cells, count)`: "exactly `count` of `cells` are mines". -/
structure Sentence where
  cells : Finset Cell
  count : ℤ
deriving DecidableEq

/-- `Sentence.known_mines`: `self.cells` if `len(self.cells) == self.count`, else `set()`. -/
def Sentence.known_mines (s : Sentence) : Finset Cell :=
  if (s.cells.card : ℤ) = s.count then s.cells else ∅

/-- `Sentence.known_safes`: `self.cells` if `self.count == 0`, else `set()`. -/
def Sentence.known_safes (s : Sentence) : Finset Cell :=
  if s.count = 0 then s.cells else ∅

/-- `Sentence.mark_mine`: if `cell in self.cells`, decrement the count and remove the cell. -/
def Sentence.mark_mine (s : Sentence) (cell : Cell) : Sentence :=
  if cell ∈ s.cells then ⟨s.cells.erase cell, s.count - 1⟩ else s

/-- `Sentence.mark_safe`: if `cell in self.cells`, remove the cell (count unchanged). -/
def Sentence.mark_safe (s : Sentence) (cell : Cell) : Sentence :=
  if cell ∈ s.cells then ⟨s.cells.erase cell, s.count⟩ else s

/-- Lexicographic order on cells, used only to linearise Python's
unspecified `set` iteration order into a deterministic one. -/
def cellLe (p q : Cell) : Prop :=
  p.1 < q.1 ∨ (p.1 = q.1 ∧ p.2 ≤ q.2)

instance : DecidableRel cellLe := fun p q => by
  unfold cellLe; infer_instance

instance : IsTrans Cell cellLe where
  trans a b c hab hbc := by
    unfold cellLe at hab hbc ⊢; omega

instance : IsAntisymm Cell cellLe where
  antisymm a b hab hba := by
    unfold cellLe at hab hba
    obtain ⟨a1, a2⟩ := a
    obtain ⟨b1, b2⟩ := b
    simp only [Prod.mk.injEq]
    omega

instance : IsTotal Cell cellLe where
  total a b := by unfold cellLe; omega

/-- Deterministic enumeration of a Python `set` of cells: the cells in
`cellLe` order.  (Implemented by insertion sort, which is structurally
recursive, so that concrete agent states evaluate inside the kernel;
the result is independent of the multiset representative because two
sorted permutations of each other are equal.) -/
def cellList (s : Finset Cell) : List Cell :=
  Quot.liftOn s.val (fun l => l.insertionSort cellLe)
    (fun l1 l2 h =>
      List.eq_of_perm_of_sorted
        ((List.perm_insertionSort cellLe l1).trans
          (h.trans (List.perm_insertionSort cellLe l2).symm))
        (List.sorted_insertionSort cellLe l1)
        (List.sorted_insertionSort cellLe l2))

/-- The agent's state: `MinesweeperAI.__init__` fields.  `moves_made` is a
Python `set`, `mines` and `safes` are Python `list`s, `knowledge` is a
Python `list` of sentences. -/
structure Agent where
  height : ℤ
  width : ℤ
  moves_made : Finset Cell
  mines : List Cell
  safes : List Cell
  knowledge : List Sentence
deriving DecidableEq

/-- `MinesweeperAI(height, width)`: empty knowledge, no moves, no known mines or safes. -/
def mkAgent (height width : ℤ) : Agent :=
  ⟨height, width, ∅, [], [], []⟩

/-- `MinesweeperAI.mark_mine`: append to `self.mines`, then `mark_mine` every sentence. -/
def Agent.mark_mine (a : Agent) (cell : Cell) : Agent :=
  { a with
    mines := a.mines ++ [cell]
    knowledge := a.knowledge.map (fun s => s.mark_mine cell) }

/-- `MinesweeperAI.mark_safe`: append to `self.safes`, then `mark_safe` every sentence. -/
def Agent.mark_safe (a : Agent) (cell : Cell) : Agent :=
  { a with
    safes := a.safes ++ [cell]
    knowledge := a.knowledge.map (fun s => s.mark_safe cell) }

/-- The 3×3 block of candidate coordinates scanned by the two nested
`for i in range(cell[0]-1, cell[0]+2)` / `for j in range(...)` loops,
in loop order. -/
def neighborCandidates (cell : Cell) : List Cell :=
  [cell.1 - 1, cell.1, cell.1 + 1].flatMap
    (fun i => [cell.2 - 1, cell.2, cell.2 + 1].map (fun j => (i, j)))

/-- Bounds test `0 <= i and i < self.height and 0 <= j and j < self.width`. -/
def Agent.inBounds (a : Agent) (p : Cell) : Bool :=
  decide (0 ≤ p.1 ∧ p.1 < a.height ∧ 0 ≤ p.2 ∧ p.2 < a.width)

/-- The in-bounds neighbours of `cell` (the candidates that survive the
`(i, j) == cell` skip and the bounds test), in loop order. -/
def Agent.neighbors (a : Agent) (cell : Cell) : List Cell :=
  (neighborCandidates cell).filter (fun p => decide (p ≠ cell) && a.inBounds p)

/-- The `cells` list built by `add_knowledge`: every in-bounds neighbour
with `(i, j) not in self.safes`.  (Note: the source does NOT exclude
known mines from this list.) -/
def Agent.newSentenceCells (a : Agent) (cell : Cell) : List Cell :=
  (a.neighbors cell).filter (fun p => decide (p ∉ a.safes))

/-- The `known_mines` counter accumulated by `add_knowledge`: the number
of in-bounds neighbours with `(i, j) in self.mines`. -/
def Agent.newSentenceKnownMines (a : Agent) (cell : Cell) : ℕ :=
  ((a.neighbors cell).filter (fun p => decide (p ∈ a.mines))).length

/-- `Sentence(cells, count - known_mines)` as constructed by `add_knowledge`
(evaluated on the agent state after step 2 marked `cell` safe). -/
def Agent.newSentence (a : Agent) (cell : Cell) (count : ℤ) : Sentence :=
  ⟨(a.newSentenceCells cell).toFinset, count - (a.newSentenceKnownMines cell : ℤ)⟩

/-- Steps 4–5 of `add_knowledge` (source lines 200–235): one pass of
safe/mine extraction over all sentences, marking the discovered cells,
removal of the sentences that were empty when scanned, then the single
O(n²) subset-resolution / deduplication sweep. -/
def Agent.simplifyPass (a : Agent) : Agent :=
  let safe_cells : Finset Cell :=
    a.knowledge.foldl (fun acc s => acc ∪ s.known_safes) ∅
  let mine_cells : Finset Cell :=
    a.knowledge.foldl (fun acc s => acc ∪ s.known_mines) ∅
  let removed_sentences : List Sentence :=
    a.knowledge.filter (fun s => decide (s.cells = ∅))
  let a1 := (cellList safe_cells).foldl Agent.mark_safe a
  let a2 := (cellList mine_cells).foldl Agent.mark_mine a1
  let a3 := { a2 with
              knowledge := removed_sentences.foldl (fun k s => k.erase s) a2.knowledge }
  let n := a3.knowledge.length
  let pairs : List (ℕ × ℕ) :=
    (List.range n).flatMap (fun i => ((List.range n).drop (i + 1)).map (fun j => (i, j)))
  let rem_add : List Sentence × List Sentence :=
    pairs.foldl
      (fun acc ij =>
        match a3.knowledge.get? ij.1, a3.knowledge.get? ij.2 with
        | some si, some sj =>
          if si = sj then (acc.1 ++ [sj], acc.2)
          else if si.cells ∩ sj.cells = sj.cells then
            (acc.1, acc.2 ++ [⟨si.cells \ sj.cells, si.count - sj.count⟩])
          else if sj.cells ∩ si.cells = si.cells then
            (acc.1, acc.2 ++ [⟨sj.cells \ si.cells, sj.count - si.count⟩])
          else acc
        | _, _ => acc)
      ([], [])
  let k1 := rem_add.1.foldl (fun k s => if s ∈ k then k.erase s else k) a3.knowledge
  let k2 := rem_add.2.foldl (fun k s => if s ∈ k then k else k ++ [s]) k1
  { a3 with knowledge := k2 }

/-- `MinesweeperAI.add_knowledge(cell, count)` (source lines 178–235):
record the move, mark the cell safe, append the new neighbourhood
sentence, then run the single simplification pass. -/
def Agent.add_knowledge (a : Agent) (cell : Cell) (count : ℤ) : Agent :=
  let a1 := { a with moves_made := insert cell a.moves_made }
  let a2 := a1.mark_safe cell
  Agent.simplifyPass { a2 with knowledge := a2.knowledge ++ [a2.newSentence cell count] }

/-- `MinesweeperAI.make_safe_move`: first cell of `self.safes` (in list
order) that is neither in `moves_made` nor in `mines`; the source
performs no state writes, so the embedding is a pure function. -/
def Agent.make_safe_move (a : Agent) : Option Cell :=
  a.safes.find? (fun m => decide (m ∉ a.moves_made) && decide (m ∉ a.mines))

/-- `MinesweeperAI.make_random_move`: up to 500 sampled candidates, the
first one outside `mines` and `moves_made` is returned.  The ambient
`random.randrange` draws are modelled as an explicit candidate stream. -/
def Agent.make_random_move (a : Agent) (stream : ℕ → Cell) : Option Cell :=
  ((List.range 500).map stream).find?
    (fun mv => decide (mv ∉ a.mines) && decide (mv ∉ a.moves_made))

/-- `Minesweeper.nearby_mines(cell)` for a board whose mine placement is
the finite set `board` (the `self.board[i][j]` truth table): the number
of in-bounds cells of the 3×3 block around `cell`, other than `cell`
itself, that carry a mine. -/
def nearbyMines (board : Finset Cell) (height width : ℤ) (cell : Cell) : ℕ :=
  ((neighborCandidates cell).filter
    (fun p => decide (p ≠ cell) &&
      decide (0 ≤ p.1 ∧ p.1 < height ∧ 0 ≤ p.2 ∧ p.2 < width) &&
      decide (p ∈ board))).length

/-- The Sentence invariant claimed by the spec: `0 ≤ count ≤ |cells|`. -/
def sentenceInv (s : Sentence) : Prop :=
  0 ≤ s.count ∧ s.count ≤ (s.cells.card : ℤ)

instance (s : Sentence) : Decidable (sentenceInv s) := by
  unfold sentenceInv; infer_instance

/-- A mine assignment `M` satisfies a sentence when exactly `count` of
its cells lie in `M` — the intended reading "exactly `count` of `cells`
are mines". -/
def Sentence.describes (s : Sentence) (M : Finset Cell) : Prop :=
  ((s.cells ∩ M).card : ℤ) = s.count

instance (s : Sentence) (M : Finset Cell) : Decidable (s.describes M) := by
  unfold Sentence.describes; infer_instance

/-- One `Sentence.mark_mine` / `Sentence.mark_safe` call with its cell argument. -/
inductive MarkOp : Type
  | mine (c : Cell)
  | safe (c : Cell)
deriving DecidableEq

/-- Apply one mark call to a sentence. -/
def applyMark (s : Sentence) : MarkOp → Sentence
  | .mine c => s.mark_mine c
  | .safe c => s.mark_safe c

/-- A mark call is truthful for a mine assignment `M` when it marks as a
mine only a cell of `M`, and as safe only a cell outside `M`. -/
def truthful (M : Finset Cell) : MarkOp → Prop
  | .mine c => c ∈ M
  | .safe c => c ∉ M

instance (M : Finset Cell) (m : MarkOp) : Decidable (truthful M m) := by
  cases m <;> (unfold truthful; infer_instance)

/-! ### Helper lemmas -/

theorem Sentence.mark_safe_idem (s : Sentence) (c : Cell) :
    (s.mark_safe c).mark_safe c = s.mark_safe c := by
  by_cases h : c ∈ s.cells
  · simp [Sentence.mark_safe, h, Finset.not_mem_erase]
  · simp [Sentence.mark_safe, h]

theorem Sentence.mark_mine_idem (s : Sentence) (c : Cell) :
    (s.mark_mine c).mark_mine c = s.mark_mine c := by
  by_cases h : c ∈ s.cells
  · simp [Sentence.mark_mine, h, Finset.not_mem_erase]
  · simp [Sentence.mark_mine, h]

theorem Sentence.mark_safe_shrinks (s : Sentence) (c : Cell) :
    (s.mark_safe c).cells ⊆ s.cells ∧ (s.mark_safe c).count = s.count := by
  by_cases h : c ∈ s.cells
  · simp [Sentence.mark_safe, h, Finset.erase_subset]
  · simp [Sentence.mark_safe, h]

theorem Sentence.mark_mine_shrinks (s : Sentence) (c : Cell) :
    (s.mark_mine c).cells ⊆ s.cells := by
  by_cases h : c ∈ s.cells
  · simp [Sentence.mark_mine, h, Finset.erase_subset]
  · simp [Sentence.mark_mine, h]

theorem Sentence.describes_inv {s : Sentence} {M : Finset Cell}
    (h : s.describes M) : sentenceInv s := by
  simp only [Sentence.describes] at h
  constructor
  · rw [← h]; exact Int.natCast_nonneg _
  · rw [← h]
    exact_mod_cast Finset.card_le_card (Finset.inter_subset_left)

theorem describes_applyMark {s : Sentence} {M : Finset Cell} {m : MarkOp}
    (h : s.describes M) (ht : truthful M m) : (applyMark s m).describes M := by
  cases m with
  | mine c =>
    simp only [truthful] at ht
    by_cases hc : c ∈ s.cells
    · have hcm : c ∈ s.cells ∩ M := Finset.mem_inter.mpr ⟨hc, ht⟩
      have hpos : 0 < (s.cells ∩ M).card := Finset.card_pos.mpr ⟨c, hcm⟩
      simp only [applyMark, Sentence.mark_mine, if_pos hc, Sentence.describes,
        Finset.erase_inter, Finset.card_erase_of_mem hcm] at h ⊢
      omega
    · simpa [applyMark, Sentence.mark_mine, if_neg hc] using h
  | safe c =>
    simp only [truthful] at ht
    by_cases hc : c ∈ s.cells
    · have hnm : c ∉ s.cells ∩ M := by simp [ht]
      simp only [applyMark, Sentence.mark_safe, if_pos hc, Sentence.describes,
        Finset.erase_inter, Finset.erase_eq_of_not_mem hnm] at h ⊢
      exact h
    · simpa [applyMark, Sentence.mark_safe, if_neg hc] using h

theorem describes_foldl {M : Finset Cell} :
    ∀ (l : List MarkOp) (s : Sentence), s.describes M → (∀ m ∈ l, truthful M m) →
      (l.foldl applyMark s).describes M := by
  intro l
  induction l with
  | nil => intro s h _; exact h
  | cons m t ih =>
    intro s h hl
    simp only [List.foldl_cons]
    exact ih _ (describes_applyMark h (hl m (by simp)))
      (fun x hx => hl x (by simp [hx]))

/-! ### Claim theorems -/

/-- C5, counterexample: the sentence `{(0,0)} = 1` satisfies the invariant
`0 ≤ count ≤ |cells|`, but one `mark_safe((0,0))` call (with an arbitrary
cell argument, as the claim allows) leaves `{} = 1`, which violates it:
the claim as stated is false. -/
theorem sentence_inv_not_preserved :
    sentenceInv ⟨{((0, 0) : Cell)}, 1⟩ ∧
      ¬ sentenceInv (Sentence.mark_safe ⟨{((0, 0) : Cell)}, 1⟩ (0, 0)) := by
  decide

/-- C5, amended: if a sentence initially describes some mine assignment `M`
(exactly `count` of its cells lie in `M` — which is how the invariant
`0 ≤ count ≤ |cells|` can hold for a true sentence), and every
`mark_mine`/`mark_safe` call in the sequence is truthful for `M`
(`mark_mine` only on cells of `M`, `mark_safe` only on cells outside `M`),
then after each call — i.e. after every prefix `l1` of the sequence —
the invariant `0 ≤ count ≤ |cells|` holds. -/
theorem sentence_inv_truthful_marks (s : Sentence) (M : Finset Cell)
    (ops l1 l2 : List MarkOp) (hM : s.describes M)
    (hops : ∀ m ∈ ops, truthful M m) (hsplit : ops = l1 ++ l2) :
    sentenceInv (l1.foldl applyMark s) := by
  apply Sentence.describes_inv
  apply describes_foldl l1 s hM
  intro m hm
  exact hops m (by simp [hsplit, hm])

theorem sentence_inv_truthful_marks_witness :
    sentenceInv (List.foldl applyMark ⟨{((0, 0) : Cell)}, 1⟩ [MarkOp.mine (0, 0)]) :=
  sentence_inv_truthful_marks ⟨{((0, 0) : Cell)}, 1⟩ {((0, 0) : Cell)}
    [MarkOp.mine (0, 0)] [MarkOp.mine (0, 0)] [] (by decide) (by decide) rfl

/-- C6, counterexample: the agent's `safes` and `mines` are lists built by
unconditional `append`, so a second `mark_safe((0,0))` (resp.
`mark_mine((0,0))`) call appends a duplicate entry and the resulting
state differs from the state after a single call: the claim as stated is
false. -/
theorem mark_twice_changes_state :
    Agent.mark_safe (Agent.mark_safe (mkAgent 8 8) (0, 0)) (0, 0)
        ≠ Agent.mark_safe (mkAgent 8 8) (0, 0) ∧
    Agent.mark_mine (Agent.mark_mine (mkAgent 8 8) (0, 0)) (0, 0)
        ≠ Agent.mark_mine (mkAgent 8 8) (0, 0) := by
  decide

/-- C6, amended: calling the agent's `mark_safe(c)` (resp. `mark_mine(c)`)
twice in succession leaves the agent in the same state as calling it
once, except that a duplicate `c` is appended to the `safes` (resp.
`mines`) list; in particular `knowledge`, `moves_made`, and membership in
every component are exactly as after one call. -/
theorem mark_idempotent_up_to_duplicate (a : Agent) (c : Cell) :
    (a.mark_safe c).mark_safe c
        = { a.mark_safe c with safes := (a.mark_safe c).safes ++ [c] } ∧
    (a.mark_mine c).mark_mine c
        = { a.mark_mine c with mines := (a.mark_mine c).mines ++ [c] } := by
  constructor
  · simp [Agent.mark_safe, List.map_map, Function.comp_def, Sentence.mark_safe_idem]
  · simp [Agent.mark_mine, List.map_map, Function.comp_def, Sentence.mark_mine_idem]

/-- C7: `known_mines` contains exactly the sentence's cells when
`|cells| == count` and is empty otherwise; `known_safes` contains exactly
the cells when `count == 0` and is empty otherwise; each is non-empty
only when additionally the cell-set is non-empty.  (Both source methods
perform no mutation, so they are embedded as pure functions of the
sentence.) -/
theorem known_mines_safes_spec (s : Sentence) (c : Cell) :
    (c ∈ s.known_mines ↔ c ∈ s.cells ∧ (s.cells.card : ℤ) = s.count) ∧
    ((s.cells.card : ℤ) ≠ s.count → s.known_mines = ∅) ∧
    (c ∈ s.known_safes ↔ c ∈ s.cells ∧ s.count = 0) ∧
    (s.count ≠ 0 → s.known_safes = ∅) ∧
    (s.known_mines ≠ ∅ → (s.cells.card : ℤ) = s.count ∧ 0 < s.cells.card) ∧
    (s.known_safes ≠ ∅ → s.count = 0 ∧ 0 < s.cells.card) := by
  by_cases h1 : (s.cells.card : ℤ) = s.count <;> by_cases h2 : s.count = 0 <;>
    by_cases h3 : s.cells = ∅ <;>
    simp_all [Sentence.known_mines, Sentence.known_safes,
      Finset.card_pos, Finset.nonempty_iff_ne_empty]

theorem known_mines_safes_spec_witness :
    (0, 0) ∈ Sentence.known_mines ⟨{((0, 0) : Cell)}, 1⟩ :=
  ((known_mines_safes_spec ⟨{((0, 0) : Cell)}, 1⟩ (0, 0)).1).mpr (by decide)

/-- C8: if `make_safe_move()` returns a cell, that cell is in `safes`,
not in `moves_made`, and not in `mines`.  The source method performs no
state writes, so it is embedded as a pure function of the agent state —
non-modification and stability of the result across repeated calls on an
unchanged state are therefore structural. -/
theorem make_safe_move_spec (a : Agent) (c : Cell)
    (h : a.make_safe_move = some c) :
    c ∈ a.safes ∧ c ∉ a.moves_made ∧ c ∉ a.mines := by
  unfold Agent.make_safe_move at h
  have hmem := List.mem_of_find?_eq_some h
  have hp := List.find?_some h
  simp only [Bool.and_eq_true, decide_eq_true_eq] at hp
  exact ⟨hmem, hp.1, hp.2⟩

theorem make_safe_move_spec_witness :
    ((0, 0) : Cell) ∈ (⟨8, 8, ∅, [], [(0, 0)], []⟩ : Agent).safes ∧
    ((0, 0) : Cell) ∉ (⟨8, 8, ∅, [], [(0, 0)], []⟩ : Agent).moves_made ∧
    ((0, 0) : Cell) ∉ (⟨8, 8, ∅, [], [(0, 0)], []⟩ : Agent).mines :=
  make_safe_move_spec ⟨8, 8, ∅, [], [(0, 0)], []⟩ (0, 0) (by decide)

/-- C9: for every agent state and every stream of sampled candidate cells
(the model of the `random.randrange` draws), `make_random_move()` never
returns a cell in `mines` or `moves_made`, and it returns `none` only
when every one of the 500 attempted candidates was in `mines` or
`moves_made`. -/
theorem make_random_move_spec (a : Agent) (stream : ℕ → Cell) :
    (∀ c, a.make_random_move stream = some c → c ∉ a.mines ∧ c ∉ a.moves_made) ∧
    (a.make_random_move stream = none →
      ∀ i, i < 500 → stream i ∈ a.mines ∨ stream i ∈ a.moves_made) := by
  constructor
  · intro c h
    unfold Agent.make_random_move at h
    have hp := List.find?_some h
    simp only [Bool.and_eq_true, decide_eq_true_eq] at hp
    exact hp
  · intro h i hi
    unfold Agent.make_random_move at h
    rw [List.find?_eq_none] at h
    have hmem : stream i ∈ (List.range 500).map stream :=
      List.mem_map.mpr ⟨i, List.mem_range.mpr hi, rfl⟩
    have hx := h _ hmem
    simp only [Bool.and_eq_true, decide_eq_true_eq] at hx
    by_cases hm : stream i ∈ a.mines
    · exact Or.inl hm
    · by_cases hmm : stream i ∈ a.moves_made
      · exact Or.inr hmm
      · exact absurd ⟨hm, hmm⟩ hx

set_option maxRecDepth 10000 in
theorem make_random_move_spec_witness :
    ((0, 0) : Cell) ∉ (mkAgent 8 8).mines ∧
    ((0, 0) : Cell) ∉ (mkAgent 8 8).moves_made :=
  (make_random_move_spec (mkAgent 8 8) (fun _ => (0, 0))).1 (0, 0) (by decide)

/-- C10: `make_safe_move()` returns `none` exactly when no cell of
`safes` lies outside both `moves_made` and `mines`; the agent's
`mark_safe`/`mark_mine` never touch `moves_made` and never change the
number of sentences in `knowledge` — each sentence is only replaced by
one whose cell-set is a subset of the original, with `mark_safe` leaving
every count unchanged. -/
theorem frame_and_no_safe_move_spec (a : Agent) (c : Cell) :
    (a.make_safe_move = none ↔ ∀ m ∈ a.safes, m ∈ a.moves_made ∨ m ∈ a.mines) ∧
    (a.mark_safe c).moves_made = a.moves_made ∧
    (a.mark_mine c).moves_made = a.moves_made ∧
    (a.mark_safe c).knowledge.length = a.knowledge.length ∧
    (a.mark_mine c).knowledge.length = a.knowledge.length ∧
    List.Forall₂ (fun t t0 => t.cells ⊆ t0.cells ∧ t.count = t0.count)
      (a.mark_safe c).knowledge a.knowledge ∧
    List.Forall₂ (fun t t0 => t.cells ⊆ t0.cells)
      (a.mark_mine c).knowledge a.knowledge := by
  refine ⟨?_, rfl, rfl, ?_, ?_, ?_, ?_⟩
  · unfold Agent.make_safe_move
    rw [List.find?_eq_none]
    constructor
    · intro h m hm
      have hx := h m hm
      simp only [Bool.and_eq_true, decide_eq_true_eq] at hx
      tauto
    · intro h m hm
      have hx := h m hm
      simp only [Bool.and_eq_true, decide_eq_true_eq]
      tauto
  · simp [Agent.mark_safe]
  · simp [Agent.mark_mine]
  · show List.Forall₂ _ (a.knowledge.map (fun s => s.mark_safe c)) a.knowledge
    rw [List.forall₂_map_left_iff, List.forall₂_same]
    intro s _
    exact Sentence.mark_safe_shrinks s c
  · show List.Forall₂ _ (a.knowledge.map (fun s => s.mark_mine c)) a.knowledge
    rw [List.forall₂_map_left_iff, List.forall₂_same]
    intro s _
    exact Sentence.mark_mine_shrinks s c

theorem frame_and_no_safe_move_spec_witness :
    (Agent.mark_safe (mkAgent 8 8) (0, 0)).moves_made = (mkAgent 8 8).moves_made :=
  (frame_and_no_safe_move_spec (mkAgent 8 8) (0, 0)).2.1

/-- Agent used for the C3 scenario: fresh except that `(1,1)` is already
known safe, so that `(0,0)`'s only in-bounds neighbours not already known
safe are `(0,1)` and `(1,0)`. -/
def agentC3 : Agent := ⟨8, 8, ∅, [], [(1, 1)], []⟩

/-- Agent used for the C2 exhibit: fresh except that `(1,0)` is already a
known mine. -/
def agentKnownMine : Agent := ⟨8, 8, ∅, [(1, 0)], [], []⟩

/-- The state of `agentKnownMine` right after steps 1–2 of
`add_knowledge((0,0), 1)` (move recorded, `(0,0)` marked safe) — the
state on which the new sentence is computed. -/
def agentKnownMine2 : Agent := ⟨8, 8, {(0, 0)}, [(1, 0)], [(0, 0)], []⟩

/-- The ground-truth mine placement of the C4 game: a 3×3 board whose
only mine is `(1,0)`. -/
def board4 : Finset Cell := {(1, 0)}

/-- The C4 game: a fresh 3×3 agent fed the five reveals
`(0,0)=1, (0,1)=1, (0,2)=0, (1,1)=1, (2,0)=1`, all consistent with
`board4`. -/
def game4 : Agent :=
  (((((mkAgent 3 3).add_knowledge (0, 0) 1).add_knowledge (0, 1) 1).add_knowledge
      (0, 2) 0).add_knowledge (1, 1) 1).add_knowledge (2, 0) 1

/-- C1: the knowledge base is NOT at a fixed point when `add_knowledge`
returns.  On a fresh 8×8 agent, `add_knowledge((1,1), 0)` returns with
the emptied sentence `{} = 0` still in `knowledge`, and one further full
simplification pass (the same extraction / marking / empty-removal /
subset-resolution pass the call itself runs) removes it: the resulting
state changes, contradicting the claimed fixed point. -/
theorem add_knowledge_not_fixed_point :
    ((mkAgent 8 8).add_knowledge (1, 1) 0).knowledge = [⟨∅, 0⟩] ∧
    (Agent.simplifyPass ((mkAgent 8 8).add_knowledge (1, 1) 0)).knowledge = [] ∧
    Agent.simplifyPass ((mkAgent 8 8).add_knowledge (1, 1) 0)
        ≠ (mkAgent 8 8).add_knowledge (1, 1) 0 := by
  decide

/-- C2: the new sentence is NOT built as claimed.  With `(1,0)` a known
mine (and not in `safes`), `add_knowledge((0,0), 1)` builds a sentence
whose cell-set still CONTAINS the known-mine neighbour `(1,0)` — the
source only excludes `safes` from the cell-set — while also decrementing
the count for it, yielding the false sentence
`{(0,1),(1,0),(1,1)} = 0`; the very same call then marks the known mine
`(1,0)` as safe. -/
theorem new_sentence_contains_known_mine :
    (1, 0) ∈ agentKnownMine.mines ∧ (1, 0) ∉ agentKnownMine2.safes ∧
    (1, 0) ∈ (agentKnownMine2.newSentence (0, 0) 1).cells ∧
    agentKnownMine2.newSentence (0, 0) 1 = ⟨{(0, 1), (1, 0), (1, 1)}, 0⟩ ∧
    (1, 0) ∈ (agentKnownMine.add_knowledge (0, 0) 1).safes := by
  decide

/-- C3: on an agent in which `(0,0)`'s only in-bounds neighbours not
already known safe are `(0,1)` and `(1,0)` (here: a fresh 8×8 agent with
`(1,1)` already marked safe), calling `add_knowledge((0,0), 1)` and then
`add_knowledge((0,1), 0)` puts `(1,0)` into the agent's `mines`.  The
first conjunct checks the stated precondition on the neighbourhood. -/
theorem subset_resolution_scenario :
    agentC3.newSentenceCells (0, 0) = [(0, 1), (1, 0)] ∧
    (1, 0) ∈ ((agentC3.add_knowledge (0, 0) 1).add_knowledge (0, 1) 0).mines := by
  decide

/-- C4: `safes` and `mines` are NOT disjoint at every observable point,
even along a reveal sequence fully consistent with a fixed mine
placement.  On a 3×3 board whose only mine is `(1,0)`, the five reveals
of `game4` report exactly the true neighbour-mine counts of non-mine
cells (first two conjunct groups), yet after the last call `(1,0)` is in
both `safes` and `mines`.  (Root cause: the C2 construction bug puts the
known mine `(1,0)` into the sentence built for the reveal of `(2,0)`,
with count decremented to `0`, and the extraction pass then marks `(1,0)`
safe.) -/
theorem safes_mines_not_disjoint :
    ((0, 0) ∉ board4 ∧ (0, 1) ∉ board4 ∧ (0, 2) ∉ board4 ∧
      (1, 1) ∉ board4 ∧ (2, 0) ∉ board4) ∧
    (nearbyMines board4 3 3 (0, 0) = 1 ∧ nearbyMines board4 3 3 (0, 1) = 1 ∧
      nearbyMines board4 3 3 (0, 2) = 0 ∧ nearbyMines board4 3 3 (1, 1) = 1 ∧
      nearbyMines board4 3 3 (2, 0) = 1) ∧
    (1, 0) ∈ game4.safes ∧ (1, 0) ∈ game4.mines := by
  decide
